import Mathlib

/-!
# Lighthouse method selector (`src/app/app.c`)

A shallow embedding of the application task of `app.c`: the bit counting helper
`popcount`, the enumeration `Method`, the parameter write `useMethod` and the
task entry point `appMain`, whose endless loop is unrolled over the finite list
of values that successive calls of `logGetUint` return.  The two lookups
`paramGetVarId` and `logGetVarId` belong to the parameter and log stores; their
results are arguments of `appMain`.

Unsigned 32-bit values are natural numbers, reduced modulo `2 ^ 32` wherever the
C code can wrap.  Calls into the firmware (parameter store, log store, debug
output, scheduler) are recorded as a trace of `Event`s.
-/

namespace App

/-! ## Utils -/

/-- The two `uint32_t` variables of `popcount`: the argument `x`, which the loop
consumes, and the accumulator `ret`. -/
structure PopcountState where
  x : Nat
  ret : Nat
  deriving DecidableEq

/-- One execution of the body of the `while (x)` loop of `popcount`:
`ret += x & 1; x >>= 1;`, both in 32-bit unsigned arithmetic. -/
def popcountBody (s : PopcountState) : PopcountState :=
  { x := s.x >>> 1, ret := (s.ret + (s.x &&& 1)) % 2 ^ 32 }

/-- The loop `while (x) { ret += x & 1; x >>= 1; }` of `popcount`, run from the
state `s` until the guard `x` is zero. -/
def popcountLoop (s : PopcountState) : PopcountState :=
  if s.x ≠ 0 then popcountLoop (popcountBody s) else s
termination_by s.x
decreasing_by
  simp only [popcountBody, Nat.shiftRight_eq_div_pow, pow_one]
  exact Nat.div_lt_self (Nat.pos_of_ne_zero (by assumption)) (by decide)

/-- The function `popcount` of `app.c`: the argument is converted to `uint32_t`,
`ret` starts at `0`, the loop runs, and `ret` is returned. -/
def popcount (x : Nat) : Nat :=
  (popcountLoop { x := x % 2 ^ 32, ret := 0 }).ret

/-! ## Meat -/

/-- The enumeration `Method` of `app.c`. -/
inductive Method where
  | crossingBeamMethod
  | sweepAngleMethod
  deriving DecidableEq

/-- The integer value of an enumerator:
`crossingBeamMethod = 0, sweepAngleMethod = 1`. -/
def Method.toInt : Method → Int
  | .crossingBeamMethod => 0
  | .sweepAngleMethod => 1

/-- The handle type `paramVarId_t` of `param.h`; `app.c` reads its field `id`
only. -/
structure paramVarId_t where
  id : Nat
  deriving DecidableEq

/-- The handle type `logVarId_t` of `log.h`, an integer that `app.c` tests
against zero. -/
abbrev logVarId_t := Nat

/-- Calls from `app.c` into the rest of the firmware, in program order. -/
inductive Event where
  /-- The call `DEBUG_PRINT (...)` with the text it prints. -/
  | debugPrint (text : String)
  /-- The call `ASSERT_FAILED()`. -/
  | assertFailed
  /-- The call `paramSetInt(varid, valuei)`. -/
  | paramSetInt (varid : paramVarId_t) (valuei : Int)
  /-- The call `logGetUint(varid)` together with the value it returned. -/
  | logGetUint (varid : logVarId_t) (value : Nat)
  /-- The call `vTaskDelay(ticks)`. -/
  | vTaskDelay (ticks : Nat)
  deriving DecidableEq

/-- Modelled from the spec: the macro `M2T` is defined outside `app.c`; the spec
gives the cadence of the loop as "16 time units", so the argument is taken
as the number of time units. -/
def M2T (ms : Nat) : Nat := ms

/-- The constant `interval = M2T(16)`, a `uint32_t`. -/
def interval : Nat := M2T 16 % 2 ^ 32

/-- The function `useMethod`: `paramSetInt(paramIdLighthouseMethod, method)`. -/
def useMethod (paramIdLighthouseMethod : paramVarId_t) (method : Method) : List Event :=
  [Event.paramSetInt paramIdLighthouseMethod method.toInt]

/-- The text printed by
`DEBUG_PRINT("APP: Switching to %s\n", newMethod == crossingBeamMethod ? ... : ...)`. -/
def switchingText (newMethod : Method) : String :=
  "APP: Switching to " ++
    (if newMethod = Method.crossingBeamMethod then "crossing beam method"
     else "sweep angle method") ++ "\n"

/-- One execution of the body of the `while (1)` loop of `appMain`, where `value`
is what `logGetUint` returns in it.  The result is the value of `oldMethod`
after the iteration and the calls made during it. -/
def loopBody (paramIdLighthouseMethod : paramVarId_t)
    (logIdLighthouseBaseStationActiveMap : logVarId_t)
    (oldMethod : Method) (value : Nat) : Method × List Event :=
  let numLighthouses : Nat := popcount value
  let newMethod : Method :=
    if numLighthouses > 1 then Method.crossingBeamMethod else Method.sweepAngleMethod
  (newMethod,
    [Event.logGetUint logIdLighthouseBaseStationActiveMap value]
      ++ useMethod paramIdLighthouseMethod newMethod
      ++ (if newMethod ≠ oldMethod then [Event.debugPrint (switchingText newMethod)] else [])
      ++ [Event.vTaskDelay interval])

/-- The `while (1)` loop of `appMain`, unrolled over the values that the
successive calls of `logGetUint` return. -/
def runLoop (paramIdLighthouseMethod : paramVarId_t)
    (logIdLighthouseBaseStationActiveMap : logVarId_t) :
    Method → List Nat → Method × List Event
  | oldMethod, [] => (oldMethod, [])
  | oldMethod, value :: values =>
    let r := loopBody paramIdLighthouseMethod logIdLighthouseBaseStationActiveMap oldMethod value
    let rs := runLoop paramIdLighthouseMethod logIdLighthouseBaseStationActiveMap r.1 values
    (rs.1, r.2 ++ rs.2)

/-- Modelled from the spec: the macro `ASSERT_FAILED` is defined outside `app.c`;
the spec describes it as a fatal failure ("diagnostic message followed by
process abort"), so the call is recorded and execution stops there. -/
def ASSERT_FAILED : List Event := [Event.assertFailed]

/-- The function `appMain`.  `paramGetVarId ("lighthouse", "method")` and
`logGetVarId ("lighthouse", "bsActive")` are calls into the firmware, whose
results are the first two arguments; `values` are the results of the successive
calls of `logGetUint`.  `Except.error` carries the calls made up to a fatal
failure, `Except.ok` the value of `oldMethod` and the calls made once all of
`values` has been read. -/
def appMain (paramIdLighthouseMethod : paramVarId_t)
    (logIdLighthouseBaseStationActiveMap : logVarId_t) (values : List Nat) :
    Except (List Event) (Method × List Event) :=
  if paramIdLighthouseMethod.id = 0 then
    Except.error
      ([Event.debugPrint "Unable to get Lighthouse Method parameter!\n"] ++ ASSERT_FAILED)
  else if logIdLighthouseBaseStationActiveMap = 0 then
    Except.error
      ([Event.debugPrint "Unable to get Lighthouse active basestation log item!\n"]
        ++ ASSERT_FAILED)
  else
    let oldMethod := Method.sweepAngleMethod
    let r := runLoop paramIdLighthouseMethod logIdLighthouseBaseStationActiveMap oldMethod values
    Except.ok (r.1, useMethod paramIdLighthouseMethod oldMethod ++ r.2)

/-! ## Observations on traces -/

/-- The parameter writes of a trace: handle and value of each `paramSetInt`. -/
def paramWrites : List Event → List (paramVarId_t × Int)
  | [] => []
  | Event.paramSetInt varid valuei :: es => (varid, valuei) :: paramWrites es
  | _ :: es => paramWrites es

/-- The texts printed by a trace. -/
def notices : List Event → List String
  | [] => []
  | Event.debugPrint text :: es => text :: notices es
  | _ :: es => notices es

/-- Whether an event is a `DEBUG_PRINT`. -/
def Event.isDebugPrint : Event → Bool
  | Event.debugPrint _ => true
  | _ => false

/-- The other enumerator of `Method`. -/
def Method.other : Method → Method
  | .crossingBeamMethod => .sweepAngleMethod
  | .sweepAngleMethod => .crossingBeamMethod

/-- Whether a list of printed texts is `switchingText m`, `switchingText m.other`,
`switchingText m`, and so on in turn. -/
def alternatesFrom : Method → List String → Bool
  | _, [] => true
  | m, t :: ts => t == switchingText m && alternatesFrom m.other ts

/-- The number of bits set among the low 32 bits of `x`. -/
def setBits (x : Nat) : Nat :=
  ∑ i in Finset.range 32, x / 2 ^ i % 2

/-- The bit length of `x`: zero for `0`, otherwise one more than the index of
the highest set bit. -/
def bitLength (x : Nat) : Nat :=
  if x = 0 then 0 else Nat.log2 x + 1

/-! ## Lemmas on `popcount` -/

theorem popcountLoop_of_ne_zero (s : PopcountState) (h : s.x ≠ 0) :
    popcountLoop s = popcountLoop (popcountBody s) := by
  rw [popcountLoop, if_pos h]

theorem popcountLoop_of_eq_zero (s : PopcountState) (h : s.x = 0) :
    popcountLoop s = s := by
  rw [popcountLoop, if_neg (by simpa using h)]

theorem popcountBody_x (s : PopcountState) : (popcountBody s).x = s.x / 2 := by
  simp [popcountBody, Nat.shiftRight_eq_div_pow]

theorem iterate_popcountBody_x (n : Nat) (s : PopcountState) :
    (popcountBody^[n] s).x = s.x / 2 ^ n := by
  induction n generalizing s with
  | zero => simp
  | succ n ih =>
    rw [Function.iterate_succ_apply, ih, popcountBody_x, Nat.div_div_eq_div_mul, pow_succ,
      Nat.mul_comm]

theorem bitLength_le_iff (x k : Nat) : bitLength x ≤ k ↔ x < 2 ^ k := by
  unfold bitLength
  split
  · next h => subst h; simp
  · next h => rw [Nat.add_one_le_iff, Nat.log2_lt h]

theorem lt_bitLength_iff (x k : Nat) : k < bitLength x ↔ x / 2 ^ k ≠ 0 := by
  rw [← not_le, bitLength_le_iff, not_lt, Ne, Nat.div_eq_zero_iff (by positivity), not_lt]

theorem popcountLoop_eq_iterate (n : Nat) (s : PopcountState)
    (hn : s.x / 2 ^ n = 0) (hk : ∀ k, k < n → s.x / 2 ^ k ≠ 0) :
    popcountLoop s = popcountBody^[n] s := by
  induction n generalizing s with
  | zero => exact popcountLoop_of_eq_zero s (by simpa using hn)
  | succ n ih =>
    have h0 : s.x ≠ 0 := by simpa using hk 0 (Nat.succ_pos n)
    rw [popcountLoop_of_ne_zero s h0, Function.iterate_succ_apply]
    apply ih
    · rw [popcountBody_x, Nat.div_div_eq_div_mul, Nat.mul_comm, ← pow_succ]
      exact hn
    · intro k hkn
      rw [popcountBody_x, Nat.div_div_eq_div_mul, Nat.mul_comm, ← pow_succ]
      exact hk (k + 1) (Nat.succ_lt_succ hkn)

theorem sum_bits_succ (k x : Nat) :
    ∑ i in Finset.range (k + 1), x / 2 ^ i % 2
      = x % 2 + ∑ i in Finset.range k, x / 2 / 2 ^ i % 2 := by
  rw [Finset.sum_range_succ', Nat.add_comm]
  congr 1
  · simp
  · refine Finset.sum_congr rfl fun i _ => ?_
    rw [Nat.div_div_eq_div_mul, pow_succ, Nat.mul_comm]

theorem popcountLoop_ret (k : Nat) (x r : Nat) (hx : x < 2 ^ k) (hr : r + k < 2 ^ 32) :
    (popcountLoop { x := x, ret := r }).ret = r + ∑ i in Finset.range k, x / 2 ^ i % 2 := by
  induction k generalizing x r with
  | zero =>
    have h0 : x = 0 := by simpa using hx
    rw [popcountLoop_of_eq_zero _ h0]
    simp
  | succ k ih =>
    by_cases h0 : x = 0
    · rw [popcountLoop_of_eq_zero _ h0]
      subst h0
      simp
    · rw [popcountLoop_of_ne_zero _ h0, sum_bits_succ]
      have hb : x % 2 < 2 := Nat.mod_lt _ (by decide)
      have hr32 : r + (k + 1) < 4294967296 := hr
      have hret : (r + x % 2) % 2 ^ 32 = r + x % 2 :=
        Nat.mod_eq_of_lt (show r + x % 2 < 4294967296 by omega)
      have hs : popcountBody { x := x, ret := r } = { x := x / 2, ret := r + x % 2 } := by
        unfold popcountBody
        simp only [Nat.shiftRight_eq_div_pow, Nat.and_one_is_mod, pow_one, hret]
      rw [hs, ih (x / 2) (r + x % 2) (by omega) (by omega), Nat.add_assoc]

theorem popcount_eq_setBits (x : Nat) (hx : x < 2 ^ 32) : popcount x = setBits x := by
  unfold popcount setBits
  rw [Nat.mod_eq_of_lt hx, popcountLoop_ret 32 x 0 hx (by decide), Nat.zero_add]

/-! ## Lemmas on traces -/

theorem paramWrites_append (es fs : List Event) :
    paramWrites (es ++ fs) = paramWrites es ++ paramWrites fs := by
  induction es with
  | nil => rfl
  | cons e es ih => cases e <;> simp [paramWrites, ih]

theorem notices_append (es fs : List Event) :
    notices (es ++ fs) = notices es ++ notices fs := by
  induction es with
  | nil => rfl
  | cons e es ih => cases e <;> simp [notices, ih]

theorem loopBody_fst (p : paramVarId_t) (l : logVarId_t) (oldMethod : Method) (value : Nat) :
    (loopBody p l oldMethod value).1
      = if popcount value > 1 then Method.crossingBeamMethod else Method.sweepAngleMethod :=
  rfl

theorem paramWrites_loopBody (p : paramVarId_t) (l : logVarId_t) (oldMethod : Method)
    (value : Nat) :
    paramWrites (loopBody p l oldMethod value).2
      = [(p, (loopBody p l oldMethod value).1.toInt)] := by
  simp only [loopBody, useMethod]
  split <;> split <;> simp [paramWrites]

theorem notices_loopBody (p : paramVarId_t) (l : logVarId_t) (oldMethod : Method)
    (value : Nat) :
    notices (loopBody p l oldMethod value).2
      = if (loopBody p l oldMethod value).1 ≠ oldMethod
        then [switchingText (loopBody p l oldMethod value).1] else [] := by
  simp only [loopBody, useMethod]
  split <;> split <;> simp_all [notices]

theorem switchingText_ne :
    switchingText Method.crossingBeamMethod ≠ switchingText Method.sweepAngleMethod := by
  decide

theorem runLoop_cons (p : paramVarId_t) (l : logVarId_t) (oldMethod : Method)
    (value : Nat) (values : List Nat) :
    runLoop p l oldMethod (value :: values)
      = ((runLoop p l (loopBody p l oldMethod value).1 values).1,
          (loopBody p l oldMethod value).2
            ++ (runLoop p l (loopBody p l oldMethod value).1 values).2) :=
  rfl

theorem runLoop_append (p : paramVarId_t) (l : logVarId_t) (oldMethod : Method)
    (pre suf : List Nat) :
    runLoop p l oldMethod (pre ++ suf)
      = ((runLoop p l (runLoop p l oldMethod pre).1 suf).1,
          (runLoop p l oldMethod pre).2 ++ (runLoop p l (runLoop p l oldMethod pre).1 suf).2) := by
  induction pre generalizing oldMethod with
  | nil => rfl
  | cons value pre ih =>
    rw [List.cons_append, runLoop_cons, runLoop_cons, ih, List.append_assoc]

theorem appMain_of_resolved (p : paramVarId_t) (l : logVarId_t) (values : List Nat)
    (hp : p.id ≠ 0) (hl : l ≠ 0) :
    appMain p l values
      = Except.ok ((runLoop p l Method.sweepAngleMethod values).1,
          useMethod p Method.sweepAngleMethod
            ++ (runLoop p l Method.sweepAngleMethod values).2) := by
  rw [appMain, if_neg hp, if_neg hl]

theorem method_eq_other_of_ne {m n : Method} (h : m ≠ n) : m = n.other := by
  cases m <;> cases n <;> first | rfl | exact absurd rfl h

theorem alternatesFrom_notices_runLoop (p : paramVarId_t) (l : logVarId_t)
    (oldMethod : Method) (values : List Nat) :
    alternatesFrom oldMethod.other (notices (runLoop p l oldMethod values).2) = true := by
  induction values generalizing oldMethod with
  | nil => rfl
  | cons value values ih =>
    rw [runLoop_cons, notices_append, notices_loopBody]
    by_cases h : (loopBody p l oldMethod value).1 = oldMethod
    · rw [if_neg (not_not.mpr h), List.nil_append, h]
      exact ih oldMethod
    · rw [if_pos h, List.singleton_append, method_eq_other_of_ne h]
      simp only [alternatesFrom, beq_self_eq_true, Bool.true_and]
      exact ih oldMethod.other

theorem paramWrites_runLoop (p : paramVarId_t) (l : logVarId_t)
    (oldMethod : Method) (values : List Nat) :
    paramWrites (runLoop p l oldMethod values).2
      = values.map fun value =>
          (p, if 1 < popcount value then (0 : Int) else 1) := by
  induction values generalizing oldMethod with
  | nil => rfl
  | cons value values ih =>
    rw [runLoop_cons, paramWrites_append, paramWrites_loopBody, ih, loopBody_fst]
    by_cases h : 1 < popcount value <;> simp [h, Method.toInt]

theorem getLast_paramWrites_runLoop (p : paramVarId_t) (l : logVarId_t)
    (oldMethod : Method) (values : List Nat) :
    (paramWrites (useMethod p oldMethod ++ (runLoop p l oldMethod values).2)).getLast?
      = some (p, (runLoop p l oldMethod values).1.toInt) := by
  induction values generalizing oldMethod with
  | nil => rfl
  | cons value values ih =>
    have h := ih (loopBody p l oldMethod value).1
    rw [paramWrites_append] at h
    rw [runLoop_cons, paramWrites_append, paramWrites_append, paramWrites_loopBody]
    simp only [useMethod, paramWrites, List.singleton_append] at h ⊢
    rw [List.getLast?_cons_cons]
    exact h

/-! ## Method selection -/

/-- C1: for every 32-bit mask with more than one bit set, one iteration of the
loop of `appMain` selects `crossingBeamMethod`: it is the value passed to
`paramSetInt` and the value of `oldMethod` after the iteration, whatever
`oldMethod` was before. -/
theorem loopBody_selects_crossingBeam (p : paramVarId_t) (l : logVarId_t)
    (oldMethod : Method) (mask : Nat) (hmask : mask < 2 ^ 32) (hbits : 1 < setBits mask) :
    (loopBody p l oldMethod mask).1 = Method.crossingBeamMethod
      ∧ paramWrites (loopBody p l oldMethod mask).2
          = [(p, Method.crossingBeamMethod.toInt)] := by
  have h : (loopBody p l oldMethod mask).1 = Method.crossingBeamMethod := by
    rw [loopBody_fst, popcount_eq_setBits mask hmask, if_pos hbits]
  exact ⟨h, by rw [paramWrites_loopBody, h]⟩

/-- Witness of C1: the mask `0b101` selects `crossingBeamMethod`. -/
theorem loopBody_selects_crossingBeam_witness :
    (5 : Nat) < 2 ^ 32 ∧ 1 < setBits 5
      ∧ (loopBody ⟨7⟩ 3 Method.sweepAngleMethod 5).1 = Method.crossingBeamMethod
      ∧ paramWrites (loopBody ⟨7⟩ 3 Method.sweepAngleMethod 5).2
          = [(⟨7⟩, Method.crossingBeamMethod.toInt)] :=
  ⟨by decide, by decide,
    loopBody_selects_crossingBeam ⟨7⟩ 3 Method.sweepAngleMethod 5 (by decide) (by decide)⟩

/-- C2: for every 32-bit mask with at most one bit set, the mask `0` included,
one iteration of the loop of `appMain` selects `sweepAngleMethod`: it is the
value passed to `paramSetInt` and the value of `oldMethod` after the iteration,
whatever `oldMethod` was before. -/
theorem loopBody_selects_sweepAngle (p : paramVarId_t) (l : logVarId_t)
    (oldMethod : Method) (mask : Nat) (hmask : mask < 2 ^ 32) (hbits : setBits mask ≤ 1) :
    (loopBody p l oldMethod mask).1 = Method.sweepAngleMethod
      ∧ paramWrites (loopBody p l oldMethod mask).2
          = [(p, Method.sweepAngleMethod.toInt)] := by
  have h : (loopBody p l oldMethod mask).1 = Method.sweepAngleMethod := by
    rw [loopBody_fst, popcount_eq_setBits mask hmask, if_neg (Nat.not_lt.mpr hbits)]
  exact ⟨h, by rw [paramWrites_loopBody, h]⟩

/-- Witness of C2: the masks `0b001` and `0` select `sweepAngleMethod`. -/
theorem loopBody_selects_sweepAngle_witness :
    ((1 : Nat) < 2 ^ 32 ∧ setBits 1 ≤ 1
      ∧ (loopBody ⟨7⟩ 3 Method.crossingBeamMethod 1).1 = Method.sweepAngleMethod
      ∧ paramWrites (loopBody ⟨7⟩ 3 Method.crossingBeamMethod 1).2
          = [(⟨7⟩, Method.sweepAngleMethod.toInt)])
    ∧ ((0 : Nat) < 2 ^ 32 ∧ setBits 0 ≤ 1
      ∧ (loopBody ⟨7⟩ 3 Method.crossingBeamMethod 0).1 = Method.sweepAngleMethod
      ∧ paramWrites (loopBody ⟨7⟩ 3 Method.crossingBeamMethod 0).2
          = [(⟨7⟩, Method.sweepAngleMethod.toInt)]) :=
  ⟨⟨by decide, by decide,
      loopBody_selects_sweepAngle ⟨7⟩ 3 Method.crossingBeamMethod 1 (by decide) (by decide)⟩,
    ⟨by decide, by decide,
      loopBody_selects_sweepAngle ⟨7⟩ 3 Method.crossingBeamMethod 0 (by decide) (by decide)⟩⟩

/-! ## Bit counting -/

/-- C3: for every `uint32_t` value `x`, `popcount x` is the number of set bits of
`x`, the sum over `i` in `0..31` of bit `i` of `x`; `popcount 0 = 0` and
`popcount 0xFFFFFFFF = 32`. -/
theorem popcount_counts_set_bits (x : Nat) (hx : x < 2 ^ 32) :
    popcount x = ∑ i in Finset.range 32, x / 2 ^ i % 2
      ∧ popcount 0 = 0 ∧ popcount 0xFFFFFFFF = 32 := by
  refine ⟨popcount_eq_setBits x hx, ?_, ?_⟩
  · rw [popcount_eq_setBits 0 (by decide)]
    decide
  · rw [popcount_eq_setBits 0xFFFFFFFF (by decide)]
    decide

/-- Witness of C3: `popcount 0b1011` is the sum of the bits of `0b1011`. -/
theorem popcount_counts_set_bits_witness :
    (11 : Nat) < 2 ^ 32
      ∧ (popcount 11 = ∑ i in Finset.range 32, 11 / 2 ^ i % 2
        ∧ popcount 0 = 0 ∧ popcount 0xFFFFFFFF = 32) :=
  ⟨by decide, popcount_counts_set_bits 11 (by decide)⟩

/-- C7: for every `uint32_t` value `x`, the loop of `popcount` started with `x`
stops after exactly `bitLength x` executions of its body: the guard `x` is zero
after that many executions and non-zero after any smaller number of them, and
the loop ends in that state.  The number is at most 32, and each execution of
the body strictly decreases `x`. -/
theorem popcountLoop_terminates (x : Nat) (hx : x < 2 ^ 32) :
    (popcountBody^[bitLength x] { x := x, ret := 0 }).x = 0
      ∧ (∀ k, k < bitLength x → (popcountBody^[k] { x := x, ret := 0 }).x ≠ 0)
      ∧ popcountLoop { x := x, ret := 0 } = popcountBody^[bitLength x] { x := x, ret := 0 }
      ∧ bitLength x ≤ 32
      ∧ (∀ k, k < bitLength x →
          (popcountBody^[k + 1] { x := x, ret := 0 }).x
            < (popcountBody^[k] { x := x, ret := 0 }).x) := by
  have hend : x / 2 ^ bitLength x = 0 :=
    (Nat.div_eq_zero_iff (by positivity)).mpr ((bitLength_le_iff x _).mp (Nat.le_refl _))
  have hrun : ∀ k, k < bitLength x → x / 2 ^ k ≠ 0 := fun k hk => (lt_bitLength_iff x k).mp hk
  refine ⟨?_, ?_, ?_, ?_, ?_⟩
  · rw [iterate_popcountBody_x]
    exact hend
  · intro k hk
    rw [iterate_popcountBody_x]
    exact hrun k hk
  · exact popcountLoop_eq_iterate (bitLength x) _ hend hrun
  · exact (bitLength_le_iff x 32).mpr hx
  · intro k hk
    rw [Function.iterate_succ_apply', popcountBody_x]
    have hpos : (popcountBody^[k] { x := x, ret := 0 }).x ≠ 0 := by
      rw [iterate_popcountBody_x]
      exact hrun k hk
    exact Nat.div_lt_self (Nat.pos_of_ne_zero hpos) (by decide)

/-- Witness of C7: the loop of `popcount` started with `0b101` stops after
`bitLength 5 = 3` executions of its body. -/
theorem popcountLoop_terminates_witness :
    (5 : Nat) < 2 ^ 32 ∧ bitLength 5 = 3
      ∧ ((popcountBody^[bitLength 5] { x := 5, ret := 0 }).x = 0
        ∧ (∀ k, k < bitLength 5 → (popcountBody^[k] { x := 5, ret := 0 }).x ≠ 0)
        ∧ popcountLoop { x := 5, ret := 0 } = popcountBody^[bitLength 5] { x := 5, ret := 0 }
        ∧ bitLength 5 ≤ 32
        ∧ (∀ k, k < bitLength 5 →
            (popcountBody^[k + 1] { x := 5, ret := 0 }).x
              < (popcountBody^[k] { x := 5, ret := 0 }).x)) :=
  ⟨by decide, by simp [bitLength, Nat.log2], popcountLoop_terminates 5 (by decide)⟩

/-! ## The loop of `appMain` -/

/-- C4: in an iteration of the loop of `appMain` a transition notice is printed
if and only if the method selected in it, which depends on the mask alone,
differs from `oldMethod`, the method of the previous iteration; the notice is
then the text for the selected method and the only one, and nothing is printed
when the two methods are equal. -/
theorem loopBody_notice_iff_changes (p : paramVarId_t) (l : logVarId_t)
    (oldMethod : Method) (mask : Nat) :
    (loopBody p l oldMethod mask).1
        = (if popcount mask > 1 then Method.crossingBeamMethod else Method.sweepAngleMethod)
      ∧ (notices (loopBody p l oldMethod mask).2 ≠ []
          ↔ (loopBody p l oldMethod mask).1 ≠ oldMethod)
      ∧ notices (loopBody p l oldMethod mask).2
          = (if (loopBody p l oldMethod mask).1 ≠ oldMethod
            then [switchingText (loopBody p l oldMethod mask).1] else [])
      ∧ switchingText Method.crossingBeamMethod = "APP: Switching to crossing beam method\n"
      ∧ switchingText Method.sweepAngleMethod = "APP: Switching to sweep angle method\n" := by
  refine ⟨loopBody_fst p l oldMethod mask, ?_, notices_loopBody p l oldMethod mask, rfl, rfl⟩
  rw [notices_loopBody]
  by_cases h : (loopBody p l oldMethod mask).1 = oldMethod
  · simp [h]
  · simp [h]

/-- C6: every iteration of the loop of `appMain` makes exactly one parameter
write, on the handle `appMain` resolved, with value `0` when the mask selects
`crossingBeamMethod` and `1` when it selects `sweepAngleMethod`, whatever
`oldMethod` is; hence the parameter writes of a run of `appMain` are the initial
one followed by one such write per mask. -/
theorem loopBody_writes_once (p : paramVarId_t) (l : logVarId_t)
    (oldMethod : Method) (mask : Nat) (masks : List Nat) (hp : p.id ≠ 0) (hl : l ≠ 0) :
    paramWrites (loopBody p l oldMethod mask).2
        = [(p, if 1 < popcount mask then (0 : Int) else 1)]
      ∧ (∃ m trace, appMain p l masks = Except.ok (m, trace)
          ∧ paramWrites trace
            = (p, 1) :: masks.map (fun m => (p, if 1 < popcount m then (0 : Int) else 1)))
      ∧ Method.crossingBeamMethod.toInt = 0 ∧ Method.sweepAngleMethod.toInt = 1 := by
  refine ⟨?_, ⟨_, _, appMain_of_resolved p l masks hp hl, ?_⟩, rfl, rfl⟩
  · rw [paramWrites_loopBody, loopBody_fst]
    by_cases h : 1 < popcount mask <;> simp [h, Method.toInt]
  · rw [paramWrites_append, paramWrites_runLoop]
    rfl

/-- Witness of C6: with handles `7` and `3`, the mask `0b101` from
`oldMethod = crossingBeamMethod`, and the run over the masks `0b011`, `0b001`. -/
theorem loopBody_writes_once_witness :
    (⟨7⟩ : paramVarId_t).id ≠ 0 ∧ (3 : logVarId_t) ≠ 0
      ∧ paramWrites (loopBody ⟨7⟩ 3 Method.crossingBeamMethod 5).2
          = [(⟨7⟩, if 1 < popcount 5 then (0 : Int) else 1)]
      ∧ (∃ m trace, appMain ⟨7⟩ 3 [3, 1] = Except.ok (m, trace)
          ∧ paramWrites trace
            = (⟨7⟩, 1) :: [3, 1].map (fun m => (⟨7⟩, if 1 < popcount m then (0 : Int) else 1)))
      ∧ Method.crossingBeamMethod.toInt = 0 ∧ Method.sweepAngleMethod.toInt = 1 :=
  ⟨by decide, by decide,
    loopBody_writes_once ⟨7⟩ 3 Method.crossingBeamMethod 5 [3, 1] (by decide) (by decide)⟩

/-- C8: the method written in an iteration of the loop of `appMain` depends on
the mask alone: from any two values of `oldMethod`, the iteration makes the same
parameter writes and leaves the same `oldMethod`, and its calls other than
`DEBUG_PRINT` are the same. -/
theorem loopBody_no_hysteresis (p : paramVarId_t) (l : logVarId_t)
    (oldMethod oldMethod2 : Method) (mask : Nat) :
    paramWrites (loopBody p l oldMethod mask).2 = paramWrites (loopBody p l oldMethod2 mask).2
      ∧ (loopBody p l oldMethod mask).1 = (loopBody p l oldMethod2 mask).1
      ∧ (loopBody p l oldMethod mask).2.filter (fun e => !e.isDebugPrint)
          = (loopBody p l oldMethod2 mask).2.filter (fun e => !e.isDebugPrint) := by
  refine ⟨?_, rfl, ?_⟩
  · rw [paramWrites_loopBody, paramWrites_loopBody]
    rfl
  · simp only [loopBody, useMethod]
    split <;> split <;> split <;> simp [Event.isDebugPrint]

/-! ## Initialization of `appMain` -/

/-- C10: when both handles are non-zero, `appMain` first writes
`sweepAngleMethod`, the integer `1`, to the parameter, and then runs its loop
from `oldMethod = sweepAngleMethod`: that write comes before every log read,
whatever the masks are, and the first iteration compares its selection with
`sweepAngleMethod`. -/
theorem appMain_initial_write (p : paramVarId_t) (l : logVarId_t) (masks : List Nat)
    (hp : p.id ≠ 0) (hl : l ≠ 0) :
    appMain p l masks
        = Except.ok ((runLoop p l Method.sweepAngleMethod masks).1,
            Event.paramSetInt p 1 :: (runLoop p l Method.sweepAngleMethod masks).2)
      ∧ (masks = [] → (runLoop p l Method.sweepAngleMethod masks).2 = [])
      ∧ (∀ mask rest, masks = mask :: rest →
          (runLoop p l Method.sweepAngleMethod masks).2
            = Event.logGetUint l mask
                :: Event.paramSetInt p (loopBody p l Method.sweepAngleMethod mask).1.toInt
                :: ((if (loopBody p l Method.sweepAngleMethod mask).1 ≠ Method.sweepAngleMethod
                      then [Event.debugPrint
                        (switchingText (loopBody p l Method.sweepAngleMethod mask).1)]
                      else [])
                    ++ [Event.vTaskDelay interval]
                    ++ (runLoop p l (loopBody p l Method.sweepAngleMethod mask).1 rest).2)) := by
  refine ⟨appMain_of_resolved p l masks hp hl, ?_, ?_⟩
  · intro h
    rw [h]
    rfl
  · intro mask rest h
    rw [h, runLoop_cons]
    simp [loopBody, useMethod]

/-- Witness of C10: with handles `7` and `3` and the masks `0b101`, `0b001`. -/
theorem appMain_initial_write_witness :
    (⟨7⟩ : paramVarId_t).id ≠ 0 ∧ (3 : logVarId_t) ≠ 0
      ∧ appMain ⟨7⟩ 3 [5, 1]
          = Except.ok ((runLoop ⟨7⟩ 3 Method.sweepAngleMethod [5, 1]).1,
              Event.paramSetInt ⟨7⟩ 1 :: (runLoop ⟨7⟩ 3 Method.sweepAngleMethod [5, 1]).2) :=
  ⟨by decide, by decide, (appMain_initial_write ⟨7⟩ 3 [5, 1] (by decide) (by decide)).1⟩

/-- C9: when both handles are non-zero, for every finite sequence of masks read
by the loop of `appMain`, the transition notices printed are in turn the text
for `crossingBeamMethod`, the text for `sweepAngleMethod`, and so on, starting
with the text for `crossingBeamMethod`, the two texts being different; and
after every iteration, that is at the end of the run over any initial part of
the masks, `oldMethod` is the value last written to the parameter. -/
theorem appMain_notices_alternate (p : paramVarId_t) (l : logVarId_t) (masks : List Nat)
    (hp : p.id ≠ 0) (hl : l ≠ 0) :
    ∃ oldMethod trace,
      appMain p l masks = Except.ok (oldMethod, trace)
        ∧ alternatesFrom Method.crossingBeamMethod (notices trace) = true
        ∧ switchingText Method.crossingBeamMethod ≠ switchingText Method.sweepAngleMethod
        ∧ (paramWrites trace).getLast? = some (p, oldMethod.toInt)
        ∧ ∀ n, ∃ oldMethodN traceN rest,
            appMain p l (masks.take n) = Except.ok (oldMethodN, traceN)
              ∧ trace = traceN ++ rest
              ∧ (paramWrites traceN).getLast? = some (p, oldMethodN.toInt) := by
  refine ⟨_, _, appMain_of_resolved p l masks hp hl, ?_, switchingText_ne,
    getLast_paramWrites_runLoop p l Method.sweepAngleMethod masks, ?_⟩
  · rw [notices_append]
    exact alternatesFrom_notices_runLoop p l Method.sweepAngleMethod masks
  · intro n
    refine ⟨_, _,
      (runLoop p l (runLoop p l Method.sweepAngleMethod (masks.take n)).1 (masks.drop n)).2,
      appMain_of_resolved p l (masks.take n) hp hl, ?_,
      getLast_paramWrites_runLoop p l Method.sweepAngleMethod (masks.take n)⟩
    conv_lhs => rw [← List.take_append_drop n masks, runLoop_append]
    exact (List.append_assoc _ _ _).symm

/-- Witness of C9: with handles `7` and `3` and the masks `0b101`, `0b111`,
`0b001`. -/
theorem appMain_notices_alternate_witness :
    (⟨7⟩ : paramVarId_t).id ≠ 0 ∧ (3 : logVarId_t) ≠ 0
      ∧ ∃ oldMethod trace,
        appMain ⟨7⟩ 3 [5, 7, 1] = Except.ok (oldMethod, trace)
          ∧ alternatesFrom Method.crossingBeamMethod (notices trace) = true
          ∧ switchingText Method.crossingBeamMethod ≠ switchingText Method.sweepAngleMethod
          ∧ (paramWrites trace).getLast? = some (⟨7⟩, oldMethod.toInt)
          ∧ ∀ n, ∃ oldMethodN traceN rest,
              appMain ⟨7⟩ 3 ([5, 7, 1].take n) = Except.ok (oldMethodN, traceN)
                ∧ trace = traceN ++ rest
                ∧ (paramWrites traceN).getLast? = some (⟨7⟩, oldMethodN.toInt) :=
  ⟨by decide, by decide, appMain_notices_alternate ⟨7⟩ 3 [5, 7, 1] (by decide) (by decide)⟩

end App
